import Mathlib

/-!
chi-tech: boundary ids, unknown addressing, finite-volume views and sweep
stages.

A shallow embedding of

* `chi_mesh::Vector` (`ChiMesh/chi_meshvector.h`),
* `LinearBoltzman::Solver::InitializeParrays`
  (`Modules/LinearBoltzmanSolver/lbs_initparrays.cc`),
* `SpatialDiscretization_FV::AddViewOfLocalContinuum` and `MapFeView`
  (`ChiMath/SpatialDiscretization/FiniteVolume/fv.cc`),
* the sweep-plane data structure `chi_mesh::sweep_management::SPDS`
  (`ChiMesh/SweepUtilities/SPDS/SPDS.h`).

Conventions. A `double` is a rational number (exact arithmetic). A C++ `int`
is an `Int` reduced by `wrap32` after every arithmetic operation, an
`unsigned long long` a `Nat` reduced modulo `2^64`. A `std::vector` is a
`List`. A step whose behaviour the language leaves undefined (reading past
the end of a vector, `back()` of an empty vector) yields `none`.
-/

/-! ## Machine integers -/

/-- Two's-complement reduction of an exact integer to the range of a 32-bit
`int`. -/
def wrap32 (i : Int) : Int := (i + 2147483648) % 4294967296 - 2147483648

/-- Reduction of an exact natural number to the range of a 64-bit
`unsigned long long`. -/
def wrap64 (n : Nat) : Nat := n % 18446744073709551616

/-- Conversion of an `int` to `unsigned long long` (value modulo `2^64`). -/
def toULL (i : Int) : Nat := (i % 18446744073709551616).toNat

/-! ## `chi_mesh::Vector` -/

namespace chi_mesh

/-- The struct `chi_mesh::Vector`: three `double` components. -/
structure Vector where
  x : ℚ
  y : ℚ
  z : ℚ
deriving DecidableEq

/-- The member `Vector operator*(double value) const`. -/
def Vector.mul (v : Vector) (value : ℚ) : Vector :=
  { x := v.x * value, y := v.y * value, z := v.z * value }

/-- The member `double Dot(const Vector& that) const`: the accumulator starts
at `0.0` and receives the three products in turn. -/
def Vector.Dot (v that : Vector) : ℚ :=
  ((0 + v.x * that.x) + v.y * that.y) + v.z * that.z

/-- A face of a cell, `cell->faces[f]`: the global index of the neighbouring
cell, negative at a boundary, and the outward normal. -/
structure CellFace where
  neighbor : Int
  normal : Vector
deriving DecidableEq

/-- The enumeration `chi_mesh::CellType`, declared in `ChiMesh/Cell/cell.h`.
The functions below name three of its enumerators; `OTHER` stands for
whatever further enumerators the declaration has, so that the enumeration
is left open. -/
inductive CellType where
  | SLAB
  | POLYGON
  | POLYHEDRON
  | OTHER (code : Nat)
deriving DecidableEq

/-- The members of `chi_mesh::Cell` that the functions below read; `cell_type`
is the result of the member function `Type()`. -/
structure Cell where
  cell_type : CellType
  cell_local_id : Int
  partition_id : Int
  material_id : Int
  faces : List CellFace
deriving DecidableEq

end chi_mesh

/-! ## `LinearBoltzman::Solver::InitializeParrays` -/

namespace LinearBoltzman

open chi_mesh

/-- The local `chi_mesh::Vector ihat(1.0,0.0,0.0)`. -/
def ihat : Vector := { x := 1, y := 0, z := 0 }

/-- The local `chi_mesh::Vector jhat(0.0,1.0,0.0)`. -/
def jhat : Vector := { x := 0, y := 1, z := 0 }

/-- The local `chi_mesh::Vector khat(0.0,0.0,1.0)`. -/
def khat : Vector := { x := 0, y := 0, z := 1 }

/-- The fields of `LinearBoltzman::CellViewFull` written by
`InitializeParrays`. -/
structure CellViewFull where
  xs_id : Int
  dof_phi_map_start : Int
  face_f_upwind_flag : List Bool
  face_f_adj_part_id : List Int
  face_boundary_id : List Int
deriving DecidableEq

/-- The `if / else if` cascade of lines 174-185: the boundary id is pushed to
`face_boundary_id` by the first test that succeeds; when none succeeds the
vector is left as it is (the cascade has no final `else`). -/
def pushFaceBoundaryId (face_norm : Vector) (face_boundary_id : List Int) :
    List Int :=
  if face_norm.Dot ihat > 0.999 then face_boundary_id ++ [0]
  else if face_norm.Dot ihat < -0.999 then face_boundary_id ++ [1]
  else if face_norm.Dot jhat > 0.999 then face_boundary_id ++ [2]
  else if face_norm.Dot jhat < -0.999 then face_boundary_id ++ [3]
  else if face_norm.Dot khat > 0.999 then face_boundary_id ++ [4]
  else if face_norm.Dot khat < -0.999 then face_boundary_id ++ [5]
  else face_boundary_id

/-- One pass of the body of the face loop (lines 159-188) for the face
`face` of the current cell; `cells` is `grid->cells`. The result is the
updated transport view and the face with its rewritten `neighbor`. -/
def initFace (cells : List Cell) (view : CellViewFull) (face : CellFace) :
    Option (CellViewFull × CellFace) :=
  if 0 ≤ face.neighbor then
    match cells[face.neighbor.toNat]? with
    | none => none
    | some adj_cell =>
      some ({ view with
                face_f_adj_part_id :=
                  view.face_f_adj_part_id ++ [adj_cell.partition_id] },
            face)
  else
    let view1 : CellViewFull :=
      { view with
          face_f_adj_part_id := view.face_f_adj_part_id ++ [face.neighbor] }
    let view2 : CellViewFull :=
      { view1 with
          face_boundary_id :=
            pushFaceBoundaryId face.normal view1.face_boundary_id }
    match view2.face_boundary_id.getLast? with
    | none => none
    | some back =>
      some (view2, { face with neighbor := wrap32 (-(wrap32 (back + 1))) })

/-- The face loop `for (int f=0; f<num_faces; f++)` over the faces of one
cell. -/
def initFaces (cells : List Cell) :
    List CellFace → CellViewFull → Option (CellViewFull × List CellFace)
  | [], view => some (view, [])
  | face :: rest, view =>
    match initFace cells view face with
    | none => none
    | some (view1, face1) =>
      match initFaces cells rest view1 with
      | none => none
      | some (view2, rest1) => some (view2, face1 :: rest1)

/-- The field of `CellFEView` that `InitializeParrays` reads. -/
structure CellFEView where
  dofs : Int
deriving DecidableEq

/-- The call `vector.resize(n,false)`. -/
def resize (flags : List Bool) (n : Nat) : List Bool :=
  flags.take n ++ List.replicate (n - flags.length) false

/-- The variables read and written by the loop over the local cells (lines
133-195): the cells of the grid, the transport views, the two counters and
the two address arrays. -/
structure TransportState where
  cells : List Cell
  cell_transport_views : List CellViewFull
  block_MG_counter : Int
  block_counter : Int
  local_cell_phi_dof_array_address : List Int
  local_cell_dof_array_address : List Int
deriving DecidableEq

/-- The body of `for (auto cell_g_index : grid->local_cell_glob_indices)`
(lines 140-194). `MapFeView` is the lookup of the piecewise-linear
discretization and `matid_to_xs_map` the material table, both declared
outside this file and taken as they are (`none`: no value). The neighbour's
`partition_id` is read from the cells as they stand when the body starts;
the body writes no `partition_id`. -/
def initCell (MapFeView : Int → Option CellFEView)
    (matid_to_xs_map : Int → Option Int) (num_grps num_moments : Int)
    (cell_g_index : Int) (st : TransportState) : Option TransportState :=
  if cell_g_index < 0 then none else
  match st.cells[cell_g_index.toNat]? with
  | none => none
  | some cell =>
  match MapFeView cell_g_index with
  | none => none
  | some cell_fe_view =>
  if cell.cell_local_id < 0 then none else
  match st.cell_transport_views[cell.cell_local_id.toNat]? with
  | none => none
  | some full_cell_view =>
  match matid_to_xs_map cell.material_id with
  | none => none
  | some xs =>
    let view1 : CellViewFull :=
      { full_cell_view with
          xs_id := xs, dof_phi_map_start := st.block_MG_counter }
    let block_MG_counter : Int :=
      wrap32 (st.block_MG_counter +
        wrap32 (wrap32 (cell_fe_view.dofs * num_grps) * num_moments))
    let view2 : CellViewFull :=
      { view1 with
          face_f_upwind_flag :=
            resize view1.face_f_upwind_flag cell.faces.length }
    match initFaces st.cells cell.faces view2 with
    | none => none
    | some (view3, faces) =>
      some
        { cells := st.cells.set cell_g_index.toNat { cell with faces := faces }
          cell_transport_views :=
            st.cell_transport_views.set cell.cell_local_id.toNat view3
          block_MG_counter := block_MG_counter
          block_counter := wrap32 (st.block_counter + cell_fe_view.dofs)
          local_cell_phi_dof_array_address :=
            st.local_cell_phi_dof_array_address ++ [view3.dof_phi_map_start]
          local_cell_dof_array_address :=
            st.local_cell_dof_array_address ++ [st.block_counter] }

/-- The loop `for (auto cell_g_index : grid->local_cell_glob_indices)`. -/
def initCells (MapFeView : Int → Option CellFEView)
    (matid_to_xs_map : Int → Option Int) (num_grps num_moments : Int) :
    List Int → TransportState → Option TransportState
  | [], st => some st
  | cell_g_index :: rest, st =>
    match initCell MapFeView matid_to_xs_map num_grps num_moments
        cell_g_index st with
    | none => none
    | some st1 =>
      initCells MapFeView matid_to_xs_map num_grps num_moments rest st1

/-- The loop of lines 59-61, `local_dof_count += cell_fe_views[c]->dofs`,
in `unsigned long long`. -/
def sumDofs : List CellFEView → Nat → Nat
  | [], local_dof_count => local_dof_count
  | view :: rest, local_dof_count =>
    sumDofs rest (wrap64 (local_dof_count + toULL view.dofs))

/-- The enumeration `LinearBoltzman::BoundaryType`, with the enumerators the
function names. -/
inductive BoundaryType where
  | VACUUM
  | INCIDENT_ISOTROPIC
  | REFLECTING
deriving DecidableEq

/-- The sweep boundaries constructed at lines 113, 115 and 126, each with the
arguments of its constructor. -/
inductive SweepBoundary where
  | BoundaryVacuum (flux : List ℚ)
  | BoundaryIncidentHomogenous (flux : List ℚ)
  | BoundaryReflecting (flux : List ℚ) (normal : Vector)
deriving DecidableEq

/-- The normal of a reflecting boundary, lines 118-124: a default-constructed
vector overwritten by the six `if` statements on `bndry_id`. -/
def reflectingNormal (bndry_id : Int) : Vector :=
  let normal : Vector := { x := 0, y := 0, z := 0 }
  let normal := if bndry_id = 0 then ihat else normal
  let normal := if bndry_id = 1 then ihat.mul (-1) else normal
  let normal := if bndry_id = 2 then jhat else normal
  let normal := if bndry_id = 3 then jhat.mul (-1) else normal
  let normal := if bndry_id = 4 then khat else normal
  let normal := if bndry_id = 5 then khat.mul (-1) else normal
  normal

/-- The loop `for (auto bndry_type : boundary_types)` of lines 108-131, from
the value `bndry_id` of the counter on; `flux_vec` is
`incident_P0_mg_boundaries` after the default vacuum boundary was pushed. -/
def populateBoundaries (flux_vec : List (List ℚ)) :
    List (BoundaryType × Int) → Int → List SweepBoundary →
      Option (List SweepBoundary)
  | [], _, sweep_boundaries => some sweep_boundaries
  | (BoundaryType.VACUUM, _) :: rest, bndry_id, sweep_boundaries =>
    match flux_vec.getLast? with
    | none => none
    | some back =>
      populateBoundaries flux_vec rest (wrap32 (bndry_id + 1))
        (sweep_boundaries ++ [SweepBoundary.BoundaryVacuum back])
  | (BoundaryType.INCIDENT_ISOTROPIC, vec_index) :: rest, bndry_id,
      sweep_boundaries =>
    if vec_index < 0 then none else
    match flux_vec[vec_index.toNat]? with
    | none => none
    | some flux =>
      populateBoundaries flux_vec rest (wrap32 (bndry_id + 1))
        (sweep_boundaries ++ [SweepBoundary.BoundaryIncidentHomogenous flux])
  | (BoundaryType.REFLECTING, _) :: rest, bndry_id, sweep_boundaries =>
    match flux_vec.getLast? with
    | none => none
    | some back =>
      populateBoundaries flux_vec rest (wrap32 (bndry_id + 1))
        (sweep_boundaries ++
          [SweepBoundary.BoundaryReflecting back (reflectingNormal bndry_id)])

/-- The solver members and collaborators that `InitializeParrays` reads. -/
structure Solver where
  /-- `typeid(*discretization) == typeid(SpatialDiscretization_PWL)`. -/
  discretization_is_pwl : Bool
  /-- `pwl_discretization->cell_fe_views`. -/
  cell_fe_views : List CellFEView
  /-- `groups.size()`. -/
  groups_size : Nat
  num_moments : Int
  boundary_types : List (BoundaryType × Int)
  incident_P0_mg_boundaries : List (List ℚ)
  /-- `grid->local_cell_glob_indices`. -/
  local_cell_glob_indices : List Int
  /-- `grid->cells`. -/
  cells : List Cell
  cell_transport_views : List CellViewFull
  local_cell_phi_dof_array_address : List Int
  local_cell_dof_array_address : List Int

/-- The state on entry to the loop over the local cells: lines 135-136 set
both counters to zero. -/
def initialTransport (s : Solver) : TransportState :=
  { cells := s.cells
    cell_transport_views := s.cell_transport_views
    block_MG_counter := 0
    block_counter := 0
    local_cell_phi_dof_array_address := s.local_cell_phi_dof_array_address
    local_cell_dof_array_address := s.local_cell_dof_array_address }

/-- What `InitializeParrays` leaves behind: the counts, the size given to the
three local vectors, the sweep boundaries and the state of the transport
views. -/
structure Parrays where
  local_dof_count : Nat
  local_unknown_count : Nat
  sweep_boundaries : List SweepBoundary
  transport : TransportState
deriving DecidableEq

/-- The function `LinearBoltzman::Solver::InitializeParrays`, without the
logging, the global reduction, the restart file and the field functions. -/
def InitializeParrays (MapFeView : Int → Option CellFEView)
    (matid_to_xs_map : Int → Option Int) (s : Solver) : Option Parrays :=
  let local_dof_count : Nat :=
    if s.discretization_is_pwl then sumDofs s.cell_fe_views 0 else 0
  let G : Int := wrap32 s.groups_size
  let M : Int := s.num_moments
  let local_unknown_count : Nat :=
    wrap64 (wrap64 (local_dof_count * toULL G) * toULL M)
  let zero_boundary : List ℚ := List.replicate G.toNat 0
  let flux_vec := s.incident_P0_mg_boundaries ++ [zero_boundary]
  match populateBoundaries flux_vec s.boundary_types 0 [] with
  | none => none
  | some sweep_boundaries =>
    let num_grps : Int := wrap32 s.groups_size
    match initCells MapFeView matid_to_xs_map num_grps s.num_moments
        s.local_cell_glob_indices (initialTransport s) with
    | none => none
    | some transport =>
      some
        { local_dof_count := local_dof_count
          local_unknown_count := local_unknown_count
          sweep_boundaries := sweep_boundaries
          transport := transport }

end LinearBoltzman

/-! ## `SpatialDiscretization_FV` -/

/-- The constructor calls `new SlabFVView(cell, vol_continuum)`,
`new PolygonFVView(...)` and `new PolyhedronFVView(...)`: a view records its
kind and the position in `vol_continuum->cells` of the cell it was
constructed from. -/
inductive CellFVView where
  | SlabFVView (cell_index : Nat)
  | PolygonFVView (cell_index : Nat)
  | PolyhedronFVView (cell_index : Nat)
deriving DecidableEq

/-- The members of `SpatialDiscretization_FV`. -/
structure SpatialDiscretization_FV where
  mapping_initialized : Bool
  cell_fv_views : List CellFVView
  cell_fv_views_mapping : List Int
deriving DecidableEq

/-- How a call that does not return a value ends: `std::vector::at` throws
`std::out_of_range`, or the behaviour is undefined. -/
inductive Failure where
  | out_of_range
  | undefined_behaviour
deriving DecidableEq

namespace SpatialDiscretization_FV

open chi_mesh

/-- The function `MapFeView(int cell_glob_index)` (lines 165-169): the
subscript is unchecked, the `int` it yields is converted to `size_t` and
passed to the checked `at`. -/
def MapFeView (fv : SpatialDiscretization_FV) (cell_glob_index : Int) :
    Except Failure CellFVView :=
  if cell_glob_index < 0 then Except.error Failure.undefined_behaviour else
  match fv.cell_fv_views_mapping[cell_glob_index.toNat]? with
  | none => Except.error Failure.undefined_behaviour
  | some mapped =>
    match fv.cell_fv_views[toULL mapped]? with
    | none => Except.error Failure.out_of_range
    | some value => Except.ok value

end SpatialDiscretization_FV

/-! ## Sweep-plane data structure

`SPDS.h` declares the structure only. The construction below follows
sections 4.1 to 4.3 of the specification for the local part of one direction
(local edges, delayed edges, stages). -/

namespace chi_mesh.sweep_management

/-- Modelled from the spec: the members of `SPDS` that hold the local
schedule of one direction. `spls` is the ordered list of stages of the
sweep-plane/level structure (each stage a set of cell indices) and
`local_cyclic_dependencies` the delayed local edges, as (predecessor,
successor) pairs. The specification gives the contents; `SPDS.h` gives the
member names. -/
structure SPDS where
  omega : Vector
  spls : List (List Nat)
  local_cyclic_dependencies : List (Nat × Nat)
deriving DecidableEq

/-- Modelled from the spec: the fatal construction errors of section 7,
(a) malformed adjacency and (b) a cycle that the delayed edges leave
unbroken. -/
inductive BuildError where
  | malformed_adjacency
  | unresolvable_cycle
deriving DecidableEq

/-- Modelled from the spec: section 4.1 for the faces of the local cell
`cell_index`. A face with a boundary sentinel yields no edge; an incoming
face (`dot(omega, normal)` negative beyond the tolerance) whose neighbour is
owned by this locality yields the candidate local edge (neighbour, cell). -/
def faceEdges (cells : List Cell) (location_id : Int) (omega : Vector)
    (tolerance : ℚ) (cell_index : Nat) :
    List CellFace → Except BuildError (List (Nat × Nat))
  | [] => Except.ok []
  | face :: rest =>
    match faceEdges cells location_id omega tolerance cell_index rest with
    | Except.error e => Except.error e
    | Except.ok edges =>
      if face.neighbor < 0 then Except.ok edges else
      match cells[face.neighbor.toNat]? with
      | none => Except.error BuildError.malformed_adjacency
      | some adj_cell =>
        if omega.Dot face.normal < -tolerance ∧
            adj_cell.partition_id = location_id then
          Except.ok ((face.neighbor.toNat, cell_index) :: edges)
        else Except.ok edges

/-- Modelled from the spec: the locally owned cells, by position in the cell
list of the partitioned mesh. -/
def localCells (cells : List Cell) (location_id : Int) : List Nat :=
  (List.range cells.length).filter
    (fun i => (cells[i]?.map (fun c => c.partition_id)) = some location_id)

/-- Modelled from the spec: section 4.1, the candidate local edges of all the
cells in `cell_indices`. -/
def localEdges (cells : List Cell) (location_id : Int) (omega : Vector)
    (tolerance : ℚ) : List Nat → Except BuildError (List (Nat × Nat))
  | [] => Except.ok []
  | cell_index :: rest =>
    match cells[cell_index]? with
    | none => Except.error BuildError.malformed_adjacency
    | some cell =>
      match faceEdges cells location_id omega tolerance cell_index
          cell.faces with
      | Except.error e => Except.error e
      | Except.ok edges =>
        match localEdges cells location_id omega tolerance rest with
        | Except.error e => Except.error e
        | Except.ok more => Except.ok (edges ++ more)

/-- Modelled from the spec: the state of the depth-first traversal of
section 4.2. -/
structure DFSState where
  visited : List Nat
  stack : List Nat
  delayed : List (Nat × Nat)
deriving DecidableEq

/-- Modelled from the spec: the successors of a cell in the candidate
graph. -/
def successors (edges : List (Nat × Nat)) (v : Nat) : List Nat :=
  (edges.filter (fun e => e.1 = v)).map (fun e => e.2)

/-- Modelled from the spec: section 4.2, the visit of `v`. An edge into a
cell that is on the traversal stack is a back-edge and is recorded as
delayed; a successor not yet visited is visited in turn. The first argument
bounds the depth of the traversal. -/
def dfsVisit (edges : List (Nat × Nat)) : Nat → Nat → DFSState → DFSState
  | 0, _, st => st
  | depth + 1, v, st =>
    let st1 : DFSState :=
      { st with visited := v :: st.visited, stack := v :: st.stack }
    let st2 : DFSState :=
      (successors edges v).foldl
        (fun acc w =>
          if w ∈ acc.stack then
            if (v, w) ∈ acc.delayed then acc
            else { acc with delayed := acc.delayed ++ [(v, w)] }
          else if w ∈ acc.visited then acc
          else dfsVisit edges depth w acc)
        st1
    { st2 with stack := st2.stack.tail }

/-- Modelled from the spec: section 4.2, one depth-first pass over the local
cells in order; the result is the set of delayed edges. -/
def findDelayed (cell_indices : List Nat) (edges : List (Nat × Nat)) :
    List (Nat × Nat) :=
  (cell_indices.foldl
    (fun acc v =>
      if v ∈ acc.visited then acc
      else dfsVisit edges cell_indices.length v acc)
    ({ visited := [], stack := [], delayed := [] } : DFSState)).delayed

/-- Modelled from the spec: the in-degree of section 4.3, counting the
ordering edges into `c` whose predecessor is among `remaining`. -/
def inDegree (edges : List (Nat × Nat)) (remaining : List Nat) (c : Nat) :
    Nat :=
  (edges.filter (fun e => e.2 = c ∧ e.1 ∈ remaining)).length

/-- Modelled from the spec: section 4.3, the cells of zero in-degree among
those not yet assigned. -/
def nextStage (edges : List (Nat × Nat)) (remaining : List Nat) : List Nat :=
  remaining.filter (fun c => inDegree edges remaining c = 0)

/-- Modelled from the spec: section 4.3, the cells left once a stage is
assigned. -/
def withoutStage (remaining stage : List Nat) : List Nat :=
  remaining.filter (fun c => c ∉ stage)

/-- Modelled from the spec: section 4.3. The cells of zero in-degree form the
next stage and are taken out; a cell therefore lands one stage after the
last of its predecessors. When cells remain and none has in-degree zero a
cycle is left: fatal. The first argument bounds the number of stages. -/
def levelize (edges : List (Nat × Nat)) :
    Nat → List Nat → Except BuildError (List (List Nat))
  | 0, remaining =>
    if remaining = [] then Except.ok []
    else Except.error BuildError.unresolvable_cycle
  | bound + 1, remaining =>
    if remaining = [] then Except.ok [] else
    if nextStage edges remaining = [] then
      Except.error BuildError.unresolvable_cycle
    else
      match levelize edges bound
          (withoutStage remaining (nextStage edges remaining)) with
      | Except.error e => Except.error e
      | Except.ok stages => Except.ok (nextStage edges remaining :: stages)

/-- Modelled from the spec: sections 4.2 and 4.3 on a candidate graph: find
the delayed edges, drop them from the ordering, layer what is left. -/
def buildFromGraph (omega : Vector) (cell_indices : List Nat)
    (edges : List (Nat × Nat)) : Except BuildError SPDS :=
  let delayed := findDelayed cell_indices edges
  let ordering := edges.filter (fun e => e ∉ delayed)
  match levelize ordering cell_indices.length cell_indices with
  | Except.error e => Except.error e
  | Except.ok stages =>
    Except.ok
      { omega := omega, spls := stages, local_cyclic_dependencies := delayed }

/-- Modelled from the spec: the construction of the `SPDS` of one direction
on one locality, sections 4.1 to 4.3. -/
def buildSPDS (cells : List Cell) (location_id : Int) (omega : Vector)
    (tolerance : ℚ) : Except BuildError SPDS :=
  match localEdges cells location_id omega tolerance
      (localCells cells location_id) with
  | Except.error e => Except.error e
  | Except.ok edges => buildFromGraph omega (localCells cells location_id) edges

/-- Modelled from the spec: the stage of a cell, the position of the first
stage that contains it. -/
def stageOf : List (List Nat) → Nat → Option Nat
  | [], _ => none
  | stage :: rest, c =>
    if c ∈ stage then some 0 else (stageOf rest c).map (fun i => i + 1)

end chi_mesh.sweep_management

/-! ## Auxiliary notions for the statements -/

namespace LinearBoltzman

/-- The `dofs` that the loop over the local cells reads through `MapFeView`,
in the order of `local_cell_glob_indices`. -/
def cellDofs (MapFeView : Int → Option CellFEView) (indices : List Int) :
    List Int :=
  indices.map (fun g => match MapFeView g with
    | some cell_fe_view => cell_fe_view.dofs
    | none => 0)

/-- The running sums `c, c + d1, c + d1 + d2, ...` of a list of dofs, one per
element. -/
def prefixFrom : Int → List Int → List Int
  | _, [] => []
  | c, d :: ds => c :: prefixFrom (c + d) ds

end LinearBoltzman

namespace SpatialDiscretization_FV

open chi_mesh

end SpatialDiscretization_FV

/-! ## Sample inputs -/

namespace LinearBoltzman

open chi_mesh

/-- A transport view as allocated before `InitializeParrays` runs: every
vector empty. -/
def emptyView : CellViewFull :=
  { xs_id := 0, dof_phi_map_start := 0, face_f_upwind_flag := [],
    face_f_adj_part_id := [], face_boundary_id := [] }

/-- A mesh of one triangular cell with vertices (0,0), (4,0) and (0,3): the
three faces are boundary faces with outward normals (0,-1,0), (-1,0,0) and
(3/5,4/5,0). -/
def triangleMesh : Solver :=
  { discretization_is_pwl := true
    cell_fe_views := [{ dofs := 3 }]
    groups_size := 1
    num_moments := 1
    boundary_types := []
    incident_P0_mg_boundaries := []
    local_cell_glob_indices := [0]
    cells :=
      [{ cell_type := CellType.POLYGON, cell_local_id := 0, partition_id := 0,
         material_id := 0,
         faces :=
           [{ neighbor := -1, normal := { x := 0, y := -1, z := 0 } },
            { neighbor := -1, normal := { x := -1, y := 0, z := 0 } },
            { neighbor := -1, normal := { x := 3 / 5, y := 4 / 5, z := 0 } }] }]
    cell_transport_views := [emptyView]
    local_cell_phi_dof_array_address := []
    local_cell_dof_array_address := [] }

/-- Two slab cells side by side along x, both owned by partition 0: the outer
faces are boundary faces, the inner faces point at each other. -/
def slabCells : List Cell :=
  [{ cell_type := CellType.SLAB, cell_local_id := 0, partition_id := 0,
     material_id := 0,
     faces :=
       [{ neighbor := -1, normal := { x := -1, y := 0, z := 0 } },
        { neighbor := 1, normal := { x := 1, y := 0, z := 0 } }] },
   { cell_type := CellType.SLAB, cell_local_id := 1, partition_id := 0,
     material_id := 0,
     faces :=
       [{ neighbor := 0, normal := { x := -1, y := 0, z := 0 } },
        { neighbor := -1, normal := { x := 1, y := 0, z := 0 } }] }]

/-- The solver on the two slab cells: 2 dofs per cell, 3 groups, 2 moments. -/
def slabMesh : Solver :=
  { discretization_is_pwl := true
    cell_fe_views := [{ dofs := 2 }, { dofs := 2 }]
    groups_size := 3
    num_moments := 2
    boundary_types :=
      [(BoundaryType.REFLECTING, 0), (BoundaryType.VACUUM, 0)]
    incident_P0_mg_boundaries := []
    local_cell_glob_indices := [0, 1]
    cells := slabCells
    cell_transport_views := [emptyView, emptyView]
    local_cell_phi_dof_array_address := []
    local_cell_dof_array_address := [] }

/-- The larger design point of the doc comment of `InitializeParrays`: 24 dofs
per cell, 2000 energy groups and 289 moments, on 155 local cells. -/
def documentedMesh : Solver :=
  { discretization_is_pwl := true
    cell_fe_views := List.replicate 155 { dofs := 24 }
    groups_size := 2000
    num_moments := 289
    boundary_types := []
    incident_P0_mg_boundaries := []
    local_cell_glob_indices := (List.range 155).map Int.ofNat
    cells := (List.range 155).map
      (fun i =>
        { cell_type := CellType.POLYHEDRON, cell_local_id := Int.ofNat i,
          partition_id := 0, material_id := 0, faces := [] })
    cell_transport_views := List.replicate 155 emptyView
    local_cell_phi_dof_array_address := []
    local_cell_dof_array_address := [] }

end LinearBoltzman

/-! ## Theorems: vectors and boundary ids -/

namespace LinearBoltzman

open chi_mesh

theorem wrap32_of_range {i : Int} (h0 : -2147483648 ≤ i) (h1 : i < 2147483648) :
    wrap32 i = i := by
  unfold wrap32
  omega

theorem Dot_ihat (n : Vector) : n.Dot ihat = n.x := by
  simp [Vector.Dot, ihat]

theorem Dot_jhat (n : Vector) : n.Dot jhat = n.y := by
  simp [Vector.Dot, jhat]

theorem Dot_khat (n : Vector) : n.Dot khat = n.z := by
  simp [Vector.Dot, khat]

/-- C3: `Dot` is sign-exact. For the normal (1,0,0), the dot product with
(1,0,0) is exactly 1 and with (-1,0,0) exactly -1; for every normal and
direction the dot product with the reversed direction `omega * -1.0` is the
negated dot product, so a face is outgoing for `omega` exactly when it is
incoming for the reversed direction. -/
theorem Dot_sign_exact :
    (Vector.mk 1 0 0).Dot (Vector.mk 1 0 0) = 1 ∧
    (Vector.mk 1 0 0).Dot (Vector.mk (-1) 0 0) = -1 ∧
    (∀ n omega : Vector, n.Dot (omega.mul (-1)) = -(n.Dot omega)) ∧
    (∀ n omega : Vector, 0 < n.Dot omega ↔ n.Dot (omega.mul (-1)) < 0) := by
  have hneg : ∀ n omega : Vector, n.Dot (omega.mul (-1)) = -(n.Dot omega) := by
    intro n omega
    simp only [Vector.Dot, Vector.mul]
    ring
  refine ⟨by norm_num [Vector.Dot], by norm_num [Vector.Dot], hneg, ?_⟩
  intro n omega
  rw [hneg]
  constructor <;> intro h <;> linarith

/-- C1: for a boundary face (`neighbor < 0`) whose normal passes exactly one
of the six axis tests, the pass of the face loop appends one boundary id to
`face_boundary_id`, and that id is 0, 1, 2, 3, 4 or 5 according to the test
that holds (`n.Dot(ihat) > 0.999`, `< -0.999`, then the same for `jhat` and
`khat`); the tests read `n.x`, `n.y` and `n.z`. -/
theorem boundary_id_of_single_match (cells : List Cell) (view : CellViewFull)
    (face : CellFace) (h_bndry : face.neighbor < 0)
    (h_one : List.count true
      [decide (face.normal.Dot ihat > 0.999),
       decide (face.normal.Dot ihat < -0.999),
       decide (face.normal.Dot jhat > 0.999),
       decide (face.normal.Dot jhat < -0.999),
       decide (face.normal.Dot khat > 0.999),
       decide (face.normal.Dot khat < -0.999)] = 1) :
    ∃ id view1 face1,
      initFace cells view face = some (view1, face1) ∧
      view1.face_boundary_id = view.face_boundary_id ++ [id] ∧
      (face.normal.Dot ihat > 0.999 → id = 0) ∧
      (face.normal.Dot ihat < -0.999 → id = 1) ∧
      (face.normal.Dot jhat > 0.999 → id = 2) ∧
      (face.normal.Dot jhat < -0.999 → id = 3) ∧
      (face.normal.Dot khat > 0.999 → id = 4) ∧
      (face.normal.Dot khat < -0.999 → id = 5) ∧
      face.normal.Dot ihat = face.normal.x ∧
      face.normal.Dot jhat = face.normal.y ∧
      face.normal.Dot khat = face.normal.z := by
  have hn : ¬ (0 ≤ face.neighbor) := by omega
  simp only [initFace, hn, if_false, pushFaceBoundaryId]
  by_cases h0 : face.normal.Dot ihat > 0.999 <;>
  by_cases h1 : face.normal.Dot ihat < -0.999 <;>
  by_cases h2 : face.normal.Dot jhat > 0.999 <;>
  by_cases h3 : face.normal.Dot jhat < -0.999 <;>
  by_cases h4 : face.normal.Dot khat > 0.999 <;>
  by_cases h5 : face.normal.Dot khat < -0.999 <;>
  simp [h0, h1, h2, h3, h4, h5, List.count_cons] at h_one ⊢ <;>
  simp [Dot_ihat, Dot_jhat, Dot_khat]

/-- C1, at a boundary face with normal (0,-1,0): the id appended is 3. -/
theorem boundary_id_of_single_match_witness :
    (-1 : Int) < 0 ∧
    ∃ id view1 face1,
      initFace [] emptyView
          { neighbor := -1, normal := { x := 0, y := -1, z := 0 } } =
        some (view1, face1) ∧
      view1.face_boundary_id = emptyView.face_boundary_id ++ [id] ∧
      id = 3 := by
  refine ⟨by decide, ?_⟩
  obtain ⟨id, view1, face1, h, hid, _, _, _, h3, _⟩ :=
    boundary_id_of_single_match [] emptyView
      { neighbor := -1, normal := { x := 0, y := -1, z := 0 } } (by decide)
      (by norm_num [Vector.Dot, ihat, jhat, khat])
  exact ⟨id, view1, face1, h, hid, h3 (by norm_num [Vector.Dot, jhat])⟩

/-- C7: the boundary sentinel is a round trip of the boundary id. For a
boundary face (`neighbor < 0`) whose normal passes one of the six axis tests,
the pass of the face loop pushes an id `k` in 0..5, rewrites the neighbor to
`-(k+1)`, which lies in -6..-1 (still negative) and gives back
`k = -neighbor - 1`, and pushes the neighbor value from before the rewrite
to `face_f_adj_part_id`. A face with `neighbor >= 0` keeps its neighbor, and
the pass returns whenever that neighbor is a position of `grid->cells`. -/
theorem boundary_sentinel_round_trip (cells : List Cell) (view : CellViewFull)
    (face : CellFace) :
    (face.neighbor < 0 →
      (face.normal.Dot ihat > 0.999 ∨ face.normal.Dot ihat < -0.999 ∨
       face.normal.Dot jhat > 0.999 ∨ face.normal.Dot jhat < -0.999 ∨
       face.normal.Dot khat > 0.999 ∨ face.normal.Dot khat < -0.999) →
      ∃ k view1 face1,
        initFace cells view face = some (view1, face1) ∧
        0 ≤ k ∧ k ≤ 5 ∧
        view1.face_boundary_id = view.face_boundary_id ++ [k] ∧
        face1.neighbor = -(k + 1) ∧
        -6 ≤ face1.neighbor ∧ face1.neighbor ≤ -1 ∧ face1.neighbor < 0 ∧
        k = -face1.neighbor - 1 ∧
        face1.normal = face.normal ∧
        view1.face_f_adj_part_id =
          view.face_f_adj_part_id ++ [face.neighbor]) ∧
    (0 ≤ face.neighbor →
      (∀ view1 face1, initFace cells view face = some (view1, face1) →
        face1.neighbor = face.neighbor) ∧
      (face.neighbor < cells.length →
        ∃ view1, initFace cells view face = some (view1, face))) := by
  constructor
  · intro h_bndry h_match
    have hn : ¬ (0 ≤ face.neighbor) := by omega
    simp only [initFace, hn, if_false, pushFaceBoundaryId]
    by_cases h0 : face.normal.Dot ihat > 0.999
    · simp [h0, wrap32]
      exact ⟨0, _, _, ⟨rfl, rfl⟩, by norm_num⟩
    by_cases h1 : face.normal.Dot ihat < -0.999
    · simp [h0, h1, wrap32]
      exact ⟨1, _, _, ⟨rfl, rfl⟩, by norm_num⟩
    by_cases h2 : face.normal.Dot jhat > 0.999
    · simp [h0, h1, h2, wrap32]
      exact ⟨2, _, _, ⟨rfl, rfl⟩, by norm_num⟩
    by_cases h3 : face.normal.Dot jhat < -0.999
    · simp [h0, h1, h2, h3, wrap32]
      exact ⟨3, _, _, ⟨rfl, rfl⟩, by norm_num⟩
    by_cases h4 : face.normal.Dot khat > 0.999
    · simp [h0, h1, h2, h3, h4, wrap32]
      exact ⟨4, _, _, ⟨rfl, rfl⟩, by norm_num⟩
    by_cases h5 : face.normal.Dot khat < -0.999
    · simp [h0, h1, h2, h3, h4, h5, wrap32]
      exact ⟨5, _, _, ⟨rfl, rfl⟩, by norm_num⟩
    · exact absurd h_match (by simp [h0, h1, h2, h3, h4, h5])
  · intro h_int
    constructor
    · intro view1 face1 h
      simp only [initFace, h_int, if_true] at h
      cases hc : cells[face.neighbor.toNat]? with
      | none => simp [hc] at h
      | some adj_cell =>
        simp only [hc, Option.some.injEq, Prod.mk.injEq] at h
        rw [← h.2]
    · intro h_range
      have hlt : face.neighbor.toNat < cells.length := by omega
      simp [initFace, h_int, List.getElem?_eq_getElem hlt]

/-- C7, at the boundary face with normal (-1,0,0) and at an interior face
with neighbor 0 of the one-cell mesh. -/
theorem boundary_sentinel_round_trip_witness :
    ((-1 : Int) < 0 ∧
      ∃ k view1 face1,
        initFace triangleMesh.cells emptyView
            { neighbor := -1, normal := { x := -1, y := 0, z := 0 } } =
          some (view1, face1) ∧
        0 ≤ k ∧ k ≤ 5 ∧
        view1.face_boundary_id = emptyView.face_boundary_id ++ [k] ∧
        face1.neighbor = -(k + 1) ∧
        -6 ≤ face1.neighbor ∧ face1.neighbor ≤ -1 ∧ face1.neighbor < 0 ∧
        k = -face1.neighbor - 1 ∧
        face1.normal = { x := -1, y := 0, z := 0 } ∧
        view1.face_f_adj_part_id = emptyView.face_f_adj_part_id ++ [-1]) ∧
    ((0 : Int) ≤ 0 ∧
      ∃ view1,
        initFace triangleMesh.cells emptyView
            { neighbor := 0, normal := { x := 1, y := 0, z := 0 } } =
          some (view1, { neighbor := 0, normal := { x := 1, y := 0, z := 0 } })) :=
  ⟨⟨by decide,
    (boundary_sentinel_round_trip triangleMesh.cells emptyView
      { neighbor := -1, normal := { x := -1, y := 0, z := 0 } }).1 (by decide)
      (by norm_num [Vector.Dot, ihat])⟩,
   ⟨by decide,
    ((boundary_sentinel_round_trip triangleMesh.cells emptyView
      { neighbor := 0, normal := { x := 1, y := 0, z := 0 } }).2
        (by decide)).2 (by decide)⟩⟩

theorem populateBoundaries_extends (flux_vec : List (List ℚ)) :
    ∀ (types : List (BoundaryType × Int)) (bndry_id : Int)
      (acc sb : List SweepBoundary),
      populateBoundaries flux_vec types bndry_id acc = some sb →
      ∃ more, sb = acc ++ more := by
  intro types
  induction types with
  | nil =>
    intro bndry_id acc sb h
    simp only [populateBoundaries, Option.some.injEq] at h
    exact ⟨[], by simp [h]⟩
  | cons head rest ih =>
    intro bndry_id acc sb h
    obtain ⟨ty, vec_index⟩ := head
    cases ty with
    | VACUUM =>
      simp only [populateBoundaries] at h
      cases hb : flux_vec.getLast? with
      | none => simp [hb] at h
      | some back =>
        simp only [hb] at h
        obtain ⟨more, hm⟩ := ih _ _ _ h
        exact ⟨_, by rw [hm, List.append_assoc]⟩
    | INCIDENT_ISOTROPIC =>
      simp only [populateBoundaries] at h
      split at h
      · simp at h
      · cases hb : flux_vec[vec_index.toNat]? with
        | none => simp [hb] at h
        | some flux =>
          simp only [hb] at h
          obtain ⟨more, hm⟩ := ih _ _ _ h
          exact ⟨_, by rw [hm, List.append_assoc]⟩
    | REFLECTING =>
      simp only [populateBoundaries] at h
      cases hb : flux_vec.getLast? with
      | none => simp [hb] at h
      | some back =>
        simp only [hb] at h
        obtain ⟨more, hm⟩ := ih _ _ _ h
        exact ⟨_, by rw [hm, List.append_assoc]⟩

theorem populateBoundaries_reflecting (flux_vec : List (List ℚ)) :
    ∀ (types : List (BoundaryType × Int)) (bndry_id : Int)
      (acc sb : List SweepBoundary) (j : Nat) (vec_index : Int),
      populateBoundaries flux_vec types bndry_id acc = some sb →
      0 ≤ bndry_id → bndry_id + j ≤ 5 →
      types[j]? = some (BoundaryType.REFLECTING, vec_index) →
      ∃ flux, sb[acc.length + j]? =
        some (SweepBoundary.BoundaryReflecting flux
          (reflectingNormal (bndry_id + j))) := by
  intro types
  induction types with
  | nil =>
    intro bndry_id acc sb j vec_index _ _ _ hj
    simp at hj
  | cons head rest ih =>
    intro bndry_id acc sb j vec_index h h0 h5 hj
    have hw : wrap32 (bndry_id + 1) = bndry_id + 1 :=
      wrap32_of_range (by omega) (by omega)
    cases j with
    | zero =>
      simp only [List.getElem?_cons_zero, Option.some.injEq] at hj
      subst hj
      simp only [populateBoundaries] at h
      cases hb : flux_vec.getLast? with
      | none => simp [hb] at h
      | some back =>
        simp only [hb] at h
        obtain ⟨more, hm⟩ := populateBoundaries_extends _ _ _ _ _ h
        refine ⟨back, ?_⟩
        rw [hm, List.append_assoc, Nat.add_zero,
          List.getElem?_append_right (le_refl _)]
        simp
    | succ j =>
      simp only [List.getElem?_cons_succ] at hj
      have step : ∀ acc1, populateBoundaries flux_vec rest (bndry_id + 1) acc1 = some sb →
          acc1.length = acc.length + 1 →
          ∃ flux, sb[acc.length + (j + 1)]? =
            some (SweepBoundary.BoundaryReflecting flux
              (reflectingNormal (bndry_id + ((j + 1 : Nat) : Int)))) := by
        intro acc1 h1 hlen
        obtain ⟨flux, hf⟩ := ih (bndry_id + 1) acc1 sb j vec_index h1 (by omega)
          (by push_cast at h5; omega) hj
        refine ⟨flux, ?_⟩
        have e1 : acc.length + (j + 1) = acc1.length + j := by omega
        have e2 : bndry_id + ((j + 1 : Nat) : Int) = bndry_id + 1 + (j : Int) := by
          push_cast; ring
        rw [e1, e2]
        exact hf
      obtain ⟨ty, vi⟩ := head
      cases ty with
      | VACUUM =>
        simp only [populateBoundaries] at h
        cases hb : flux_vec.getLast? with
        | none => simp [hb] at h
        | some back =>
          simp only [hb, hw] at h
          exact step _ h (by simp)
      | INCIDENT_ISOTROPIC =>
        simp only [populateBoundaries] at h
        split at h
        · simp at h
        · cases hb : flux_vec[vi.toNat]? with
          | none => simp [hb] at h
          | some flux =>
            simp only [hb, hw] at h
            exact step _ h (by simp)
      | REFLECTING =>
        simp only [populateBoundaries] at h
        cases hb : flux_vec.getLast? with
        | none => simp [hb] at h
        | some back =>
          simp only [hb, hw] at h
          exact step _ h (by simp)

/-- C8: the two boundary-id tables agree. For `k` in 0..5 the normal given to
a reflecting sweep boundary at `bndry_id = k` is entry `k` of (1,0,0),
(-1,0,0), (0,1,0), (0,-1,0), (0,0,1), (0,0,-1); the cascade of the face loop
pushes the boundary id `k` for that normal; and when entry `k` of
`boundary_types` is REFLECTING, entry `k` of `sweep_boundaries` is the
reflecting boundary with that normal. -/
theorem reflecting_normal_round_trip (k : Int) (h0 : 0 ≤ k) (h5 : k ≤ 5) :
    ([{ x := 1, y := 0, z := 0 }, { x := -1, y := 0, z := 0 },
      { x := 0, y := 1, z := 0 }, { x := 0, y := -1, z := 0 },
      { x := 0, y := 0, z := 1 }, { x := 0, y := 0, z := -1 }] :
        List Vector)[k.toNat]? = some (reflectingNormal k) ∧
    (∀ ids : List Int,
      pushFaceBoundaryId (reflectingNormal k) ids = ids ++ [k]) ∧
    (∀ (flux_vec : List (List ℚ)) (types : List (BoundaryType × Int))
        (sb : List SweepBoundary) (vec_index : Int),
      populateBoundaries flux_vec types 0 [] = some sb →
      types[k.toNat]? = some (BoundaryType.REFLECTING, vec_index) →
      ∃ flux, sb[k.toNat]? =
        some (SweepBoundary.BoundaryReflecting flux (reflectingNormal k))) := by
  refine ⟨?_, ?_, ?_⟩
  · interval_cases k <;>
      norm_num [reflectingNormal, Vector.mul, ihat, jhat, khat, Int.toNat]
  · intro ids
    interval_cases k <;>
      norm_num [reflectingNormal, pushFaceBoundaryId, Vector.Dot, Vector.mul,
        ihat, jhat, khat]
  · intro flux_vec types sb vec_index h hk
    have := populateBoundaries_reflecting flux_vec types 0 [] sb k.toNat
      vec_index h (le_refl 0) (by simp; omega) hk
    simpa [Int.toNat_of_nonneg h0] using this

/-- C8, at `k = 3`: the normal is (0,-1,0) and it is classified as
boundary 3. -/
theorem reflecting_normal_round_trip_witness :
    (0 : Int) ≤ 3 ∧ (3 : Int) ≤ 5 ∧
    reflectingNormal 3 = { x := 0, y := -1, z := 0 } ∧
    pushFaceBoundaryId (reflectingNormal 3) [] = [3] := by
  obtain ⟨h1, h2, _⟩ := reflecting_normal_round_trip 3 (by decide) (by decide)
  refine ⟨by decide, by decide, ?_, ?_⟩
  · simpa using h1.symm
  · simpa using h2 []

/-- C2, on the one-cell triangular mesh: `InitializeParrays` returns, the
cell has three boundary faces, and its `face_boundary_id` ends with two
entries, [3, 1]: nothing is pushed for the face with normal (3/5,4/5,0),
whose neighbor is then rewritten from the id of the face before it. When
such a face is the first boundary face of its cell, `back()` is called on an
empty vector and the pass has no defined result. -/
theorem missing_boundary_id_on_oblique_face :
    (triangleMesh.cells.map
      (fun c => (c.faces.filter (fun f => f.neighbor < 0)).length)) = [3] ∧
    (InitializeParrays (fun _ => some { dofs := 3 }) (fun _ => some 0)
        triangleMesh).map
      (fun r =>
        (r.transport.cell_transport_views.map (fun v => v.face_boundary_id),
         r.transport.cells.map (fun c => c.faces.map (fun f => f.neighbor)))) =
      some ([[3, 1]], [[-4, -2, -2]]) ∧
    initFace triangleMesh.cells emptyView
      { neighbor := -1, normal := { x := 3 / 5, y := 4 / 5, z := 0 } } =
        none := by
  refine ⟨by decide, ?_, ?_⟩
  · norm_num [InitializeParrays, initialTransport, triangleMesh, emptyView,
      populateBoundaries, initCells, initCell, initFaces, initFace,
      pushFaceBoundaryId, Vector.Dot, ihat, jhat, khat, wrap32, resize]
  · norm_num [initFace, emptyView, pushFaceBoundaryId, Vector.Dot, ihat, jhat,
      khat]

end LinearBoltzman

/-! ## Theorems: unknown addressing -/

namespace LinearBoltzman

open chi_mesh

theorem initFace_dof {cells : List Cell} {view view1 : CellViewFull}
    {face face1 : CellFace}
    (h : initFace cells view face = some (view1, face1)) :
    view1.dof_phi_map_start = view.dof_phi_map_start := by
  unfold initFace at h
  split at h
  · split at h
    · simp at h
    · simp only [Option.some.injEq, Prod.mk.injEq] at h
      rw [← h.1]
  · simp only at h
    split at h
    · simp at h
    · simp only [Option.some.injEq, Prod.mk.injEq] at h
      rw [← h.1]

theorem initFaces_dof {cells : List Cell} :
    ∀ (faces : List CellFace) (view view1 : CellViewFull)
      (faces1 : List CellFace),
      initFaces cells faces view = some (view1, faces1) →
      view1.dof_phi_map_start = view.dof_phi_map_start := by
  intro faces
  induction faces with
  | nil =>
    intro view view1 faces1 h
    simp only [initFaces, Option.some.injEq, Prod.mk.injEq] at h
    rw [← h.1]
  | cons face rest ih =>
    intro view view1 faces1 h
    simp only [initFaces] at h
    cases h1 : initFace cells view face with
    | none => simp [h1] at h
    | some p =>
      obtain ⟨viewa, facea⟩ := p
      simp only [h1] at h
      cases h2 : initFaces cells rest viewa with
      | none => simp [h2] at h
      | some q =>
        obtain ⟨viewb, restb⟩ := q
        simp only [h2, Option.some.injEq, Prod.mk.injEq] at h
        rw [← h.1, ih _ _ _ h2, initFace_dof h1]

theorem initCell_spec {MapFeView : Int → Option CellFEView}
    {matid_to_xs_map : Int → Option Int} {G M g : Int}
    {st st1 : TransportState}
    (h : initCell MapFeView matid_to_xs_map G M g st = some st1) :
    ∃ cell fe view,
      st.cells[g.toNat]? = some cell ∧ MapFeView g = some fe ∧
      st1.block_counter = wrap32 (st.block_counter + fe.dofs) ∧
      st1.block_MG_counter =
        wrap32 (st.block_MG_counter + wrap32 (wrap32 (fe.dofs * G) * M)) ∧
      st1.local_cell_dof_array_address =
        st.local_cell_dof_array_address ++ [st.block_counter] ∧
      st1.local_cell_phi_dof_array_address =
        st.local_cell_phi_dof_array_address ++ [st.block_MG_counter] ∧
      st1.cell_transport_views[cell.cell_local_id.toNat]? = some view ∧
      view.dof_phi_map_start = st.block_MG_counter ∧
      ∃ cell1, st1.cells[g.toNat]? = some cell1 ∧
        cell1.cell_local_id = cell.cell_local_id := by
  unfold initCell at h
  split at h
  · simp at h
  · cases hc : st.cells[g.toNat]? with
    | none => simp [hc] at h
    | some cell =>
      cases hf : MapFeView g with
      | none => simp [hc, hf] at h
      | some fe =>
        simp only [hc, hf] at h
        split at h
        · simp at h
        · cases hv : st.cell_transport_views[cell.cell_local_id.toNat]? with
          | none => simp [hv] at h
          | some full =>
            cases hx : matid_to_xs_map cell.material_id with
            | none => simp [hv, hx] at h
            | some xs =>
              simp only [hv, hx] at h
              split at h
              · simp at h
              · rename_i view3 faces hfaces
                simp only [Option.some.injEq] at h
                have hd := initFaces_dof _ _ _ _ hfaces
                have hlen1 : g.toNat < st.cells.length := by
                  by_contra hcon
                  rw [List.getElem?_eq_none (by omega)] at hc
                  simp at hc
                have hlen2 : cell.cell_local_id.toNat <
                    st.cell_transport_views.length := by
                  by_contra hcon
                  rw [List.getElem?_eq_none (by omega)] at hv
                  simp at hv
                refine ⟨cell, fe, view3, rfl, rfl, ?_, ?_, ?_, ?_, ?_, ?_, ?_⟩
                · rw [← h]
                · rw [← h]
                · rw [← h]
                · rw [← h, hd]
                · rw [← h]
                  simp [List.getElem?_set_self, hlen2]
                · rw [hd]
                · refine ⟨{ cell with faces := faces }, ?_, rfl⟩
                  rw [← h]
                  simp [List.getElem?_set_self, hlen1]

theorem prefixFrom_length : ∀ (ds : List Int) (c : Int),
    (prefixFrom c ds).length = ds.length := by
  intro ds
  induction ds with
  | nil => intro c; rfl
  | cons d ds ih => intro c; simp [prefixFrom, ih]

theorem prefixFrom_get : ∀ (ds : List Int) (c : Int) (k : Nat),
    k < ds.length → (prefixFrom c ds)[k]? = some (c + (ds.take k).sum) := by
  intro ds
  induction ds with
  | nil => intro c k hk; simp at hk
  | cons d ds ih =>
    intro c k hk
    cases k with
    | zero => simp [prefixFrom]
    | succ k =>
      simp only [List.length_cons, Nat.add_lt_add_iff_right] at hk
      simp only [prefixFrom, List.getElem?_cons_succ, List.take_succ_cons,
        List.sum_cons]
      rw [ih (c + d) k hk, add_assoc]

theorem prefixFrom_lower : ∀ (ds : List Int) (c : Int),
    (∀ d ∈ ds, 0 ≤ d) → ∀ a ∈ prefixFrom c ds, c ≤ a := by
  intro ds
  induction ds with
  | nil => intro c _ a ha; simp [prefixFrom] at ha
  | cons d ds ih =>
    intro c hd a ha
    simp only [prefixFrom, List.mem_cons] at ha
    rcases ha with ha | ha
    · omega
    · have h1 := ih (c + d) (fun x hx => hd x (List.mem_cons_of_mem _ hx)) a ha
      have h2 := hd d (List.mem_cons_self _ _)
      omega

theorem prefixFrom_pairwise : ∀ (ds : List Int) (c : Int),
    (∀ d ∈ ds, 0 ≤ d) → (prefixFrom c ds).Pairwise (fun a b => a ≤ b) := by
  intro ds
  induction ds with
  | nil => intro c _; simp [prefixFrom]
  | cons d ds ih =>
    intro c hd
    have hd0 := hd d (List.mem_cons_self _ _)
    have hds : ∀ x ∈ ds, 0 ≤ x := fun x hx => hd x (List.mem_cons_of_mem _ hx)
    simp only [prefixFrom, List.pairwise_cons]
    refine ⟨?_, ih (c + d) hds⟩
    intro a ha
    have := prefixFrom_lower ds (c + d) hds a ha
    omega

theorem cellDofs_cons {MapFeView : Int → Option CellFEView} {g : Int}
    {fe : CellFEView} (rest : List Int) (h : MapFeView g = some fe) :
    cellDofs MapFeView (g :: rest) = fe.dofs :: cellDofs MapFeView rest := by
  simp [cellDofs, h]

theorem initCells_addresses {MapFeView : Int → Option CellFEView}
    {matid_to_xs_map : Int → Option Int} {G M : Int} (hG : 0 ≤ G)
    (hM : 0 ≤ M) :
    ∀ (indices : List Int) (st out : TransportState),
      initCells MapFeView matid_to_xs_map G M indices st = some out →
      (∀ d ∈ cellDofs MapFeView indices, 0 ≤ d) →
      0 ≤ st.block_counter →
      st.block_MG_counter = G * M * st.block_counter →
      st.block_counter + (cellDofs MapFeView indices).sum < 2147483648 →
      (st.block_counter + (cellDofs MapFeView indices).sum) * G
        < 2147483648 →
      (st.block_counter + (cellDofs MapFeView indices).sum) * G * M
        < 2147483648 →
      out.local_cell_dof_array_address =
        st.local_cell_dof_array_address ++
          prefixFrom st.block_counter (cellDofs MapFeView indices) ∧
      out.local_cell_phi_dof_array_address =
        st.local_cell_phi_dof_array_address ++
          (prefixFrom st.block_counter (cellDofs MapFeView indices)).map
            (fun a => G * M * a) := by
  intro indices
  induction indices with
  | nil =>
    intro st out h _ _ _ _ _ _
    simp only [initCells, Option.some.injEq] at h
    subst h
    simp [cellDofs, prefixFrom]
  | cons g rest ih =>
    intro st out h hd hc hmg h1 h2 h3
    simp only [initCells] at h
    cases hstep : initCell MapFeView matid_to_xs_map G M g st with
    | none => simp [hstep] at h
    | some st1 =>
      simp only [hstep] at h
      obtain ⟨cell, fe, view, _, hfe, hbc, hbmg, hdof, hphi, _, _, _⟩ :=
        initCell_spec hstep
      rw [cellDofs_cons rest hfe] at hd h1 h2 h3 ⊢
      simp only [List.sum_cons] at h1 h2 h3
      have hd0 : 0 ≤ fe.dofs := hd _ (List.mem_cons_self _ _)
      have hrest : ∀ d ∈ cellDofs MapFeView rest, 0 ≤ d :=
        fun x hx => hd x (List.mem_cons_of_mem _ hx)
      have hS : 0 ≤ (cellDofs MapFeView rest).sum := List.sum_nonneg hrest
      have hT : fe.dofs ≤
          st.block_counter + (fe.dofs + (cellDofs MapFeView rest).sum) := by
        omega
      have hcd : st.block_counter + fe.dofs ≤
          st.block_counter + (fe.dofs + (cellDofs MapFeView rest).sum) := by
        omega
      have a1 : fe.dofs * G ≤
          (st.block_counter + (fe.dofs + (cellDofs MapFeView rest).sum)) * G :=
        mul_le_mul_of_nonneg_right hT hG
      have a2 : fe.dofs * G * M ≤
          (st.block_counter + (fe.dofs + (cellDofs MapFeView rest).sum)) * G
            * M :=
        mul_le_mul_of_nonneg_right a1 hM
      have a3 : (st.block_counter + fe.dofs) * G ≤
          (st.block_counter + (fe.dofs + (cellDofs MapFeView rest).sum)) * G :=
        mul_le_mul_of_nonneg_right hcd hG
      have a4 : (st.block_counter + fe.dofs) * G * M ≤
          (st.block_counter + (fe.dofs + (cellDofs MapFeView rest).sum)) * G
            * M :=
        mul_le_mul_of_nonneg_right a3 hM
      have n1 : 0 ≤ fe.dofs * G := mul_nonneg hd0 hG
      have n2 : 0 ≤ fe.dofs * G * M := mul_nonneg n1 hM
      have n3 : 0 ≤ (st.block_counter + fe.dofs) * G * M :=
        mul_nonneg (mul_nonneg (by omega) hG) hM
      have w1 : wrap32 (fe.dofs * G) = fe.dofs * G :=
        wrap32_of_range (by omega) (by omega)
      have w2 : wrap32 (fe.dofs * G * M) = fe.dofs * G * M :=
        wrap32_of_range (by omega) (by omega)
      have e3 : st.block_MG_counter + fe.dofs * G * M =
          (st.block_counter + fe.dofs) * G * M := by
        rw [hmg]; ring
      have w3 : wrap32 (st.block_MG_counter + fe.dofs * G * M) =
          (st.block_counter + fe.dofs) * G * M := by
        rw [e3]
        exact wrap32_of_range (by omega) (by omega)
      have w4 : wrap32 (st.block_counter + fe.dofs) =
          st.block_counter + fe.dofs :=
        wrap32_of_range (by omega) (by omega)
      rw [w1, w2, w3] at hbmg
      rw [w4] at hbc
      have hmg1 : st1.block_MG_counter = G * M * st1.block_counter := by
        rw [hbmg, hbc]; ring
      have := ih st1 out h hrest (by rw [hbc]; omega) hmg1
        (by rw [hbc]; omega) (by rw [hbc]; rw [← add_assoc] at h2; exact h2)
        (by rw [hbc]; rw [← add_assoc] at h3; exact h3)
      rw [this.1, this.2, hdof, hphi, hbc, hmg]
      simp [prefixFrom]

theorem initCells_append {MapFeView : Int → Option CellFEView}
    {matid_to_xs_map : Int → Option Int} {G M : Int} :
    ∀ (pre post : List Int) (st : TransportState),
      initCells MapFeView matid_to_xs_map G M (pre ++ post) st =
        match initCells MapFeView matid_to_xs_map G M pre st with
        | none => none
        | some mid => initCells MapFeView matid_to_xs_map G M post mid := by
  intro pre
  induction pre with
  | nil => intro post st; simp [initCells]
  | cons g pre ih =>
    intro post st
    simp only [List.cons_append, initCells]
    cases initCell MapFeView matid_to_xs_map G M g st with
    | none => rfl
    | some st1 => exact ih post st1

theorem initCells_phi_extends {MapFeView : Int → Option CellFEView}
    {matid_to_xs_map : Int → Option Int} {G M : Int} :
    ∀ (indices : List Int) (st out : TransportState),
      initCells MapFeView matid_to_xs_map G M indices st = some out →
      ∃ more, out.local_cell_phi_dof_array_address =
          st.local_cell_phi_dof_array_address ++ more ∧
        more.length = indices.length := by
  intro indices
  induction indices with
  | nil =>
    intro st out h
    simp only [initCells, Option.some.injEq] at h
    exact ⟨[], by simp [h]⟩
  | cons g rest ih =>
    intro st out h
    simp only [initCells] at h
    cases hstep : initCell MapFeView matid_to_xs_map G M g st with
    | none => simp [hstep] at h
    | some st1 =>
      simp only [hstep] at h
      obtain ⟨more, hm, hl⟩ := ih st1 out h
      obtain ⟨_, _, _, _, _, _, _, _, hphi, _⟩ := initCell_spec hstep
      exact ⟨st.block_MG_counter :: more, by rw [hm, hphi]; simp,
        by simp [hl]⟩

/-- C9: with both address arrays empty on entry and no `int` overflow (the
dofs and the moment count are non-negative and the total dof count, also
times `num_grps` and times `num_grps * num_moments`, is below `2^31`), after
`InitializeParrays` entry `k` of `local_cell_dof_array_address` is the sum of
the dofs of the local cells before cell `k`, entry `k` of
`local_cell_phi_dof_array_address` is `num_grps * num_moments` times that and
is the `dof_phi_map_start` that the view of cell `k` holds when cell `k` has
been processed; the first cell gets address 0 and both arrays are
non-decreasing. -/
theorem address_arrays (MapFeView : Int → Option CellFEView)
    (matid_to_xs_map : Int → Option Int) (s : Solver) (r : Parrays)
    (h_run : InitializeParrays MapFeView matid_to_xs_map s = some r)
    (h_phi_empty : s.local_cell_phi_dof_array_address = [])
    (h_dof_empty : s.local_cell_dof_array_address = [])
    (h_dofs : ∀ d ∈ cellDofs MapFeView s.local_cell_glob_indices, 0 ≤ d)
    (h_M : 0 ≤ s.num_moments)
    (h_G : (s.groups_size : Int) < 2147483648)
    (h1 : (cellDofs MapFeView s.local_cell_glob_indices).sum < 2147483648)
    (h2 : (cellDofs MapFeView s.local_cell_glob_indices).sum * s.groups_size
      < 2147483648)
    (h3 : (cellDofs MapFeView s.local_cell_glob_indices).sum * s.groups_size
      * s.num_moments < 2147483648) :
    r.transport.local_cell_dof_array_address.length =
      s.local_cell_glob_indices.length ∧
    r.transport.local_cell_phi_dof_array_address.length =
      s.local_cell_glob_indices.length ∧
    (∀ k, k < s.local_cell_glob_indices.length →
      r.transport.local_cell_dof_array_address[k]? =
        some ((cellDofs MapFeView s.local_cell_glob_indices).take k).sum ∧
      r.transport.local_cell_phi_dof_array_address[k]? =
        some (s.groups_size * s.num_moments *
          ((cellDofs MapFeView s.local_cell_glob_indices).take k).sum)) ∧
    (∀ pre g post, s.local_cell_glob_indices = pre ++ g :: post →
      ∃ mid cell view,
        initCells MapFeView matid_to_xs_map (wrap32 s.groups_size)
          s.num_moments (pre ++ [g]) (initialTransport s) = some mid ∧
        mid.cells[g.toNat]? = some cell ∧
        mid.cell_transport_views[cell.cell_local_id.toNat]? = some view ∧
        r.transport.local_cell_phi_dof_array_address[pre.length]? =
          some view.dof_phi_map_start) ∧
    (s.local_cell_glob_indices ≠ [] →
      r.transport.local_cell_dof_array_address[0]? = some 0 ∧
      r.transport.local_cell_phi_dof_array_address[0]? = some 0) ∧
    r.transport.local_cell_dof_array_address.Pairwise (fun a b => a ≤ b) ∧
    r.transport.local_cell_phi_dof_array_address.Pairwise
      (fun a b => a ≤ b) := by
  have hGw : wrap32 (s.groups_size : Int) = s.groups_size :=
    wrap32_of_range (by omega) h_G
  have hG0 : (0 : Int) ≤ s.groups_size := Int.ofNat_nonneg _
  -- the run of the loop inside `InitializeParrays`
  have hloop : initCells MapFeView matid_to_xs_map (s.groups_size : Int)
      s.num_moments s.local_cell_glob_indices (initialTransport s) =
        some r.transport := by
    unfold InitializeParrays at h_run
    simp only [hGw] at h_run
    split at h_run
    · simp at h_run
    · split at h_run
      · simp at h_run
      · rename_i tr htr
        simp only [Option.some.injEq] at h_run
        rw [← h_run]
        exact htr
  have hinit0 : (initialTransport s).block_counter = 0 := rfl
  have hinit1 : (initialTransport s).block_MG_counter = 0 := rfl
  obtain ⟨hdof, hphi⟩ := initCells_addresses hG0 h_M _ _ _ hloop h_dofs
    (by rw [hinit0]) (by rw [hinit0, hinit1]; ring)
    (by rw [hinit0]; omega) (by rw [hinit0, zero_add]; exact h2)
    (by rw [hinit0, zero_add]; exact h3)
  have ea : (initialTransport s).local_cell_dof_array_address = [] :=
    h_dof_empty
  have ep : (initialTransport s).local_cell_phi_dof_array_address = [] :=
    h_phi_empty
  rw [ea, hinit0, List.nil_append] at hdof
  rw [ep, hinit0, List.nil_append] at hphi
  have hlenD : (cellDofs MapFeView s.local_cell_glob_indices).length =
      s.local_cell_glob_indices.length := by
    simp [cellDofs]
  have hGM : (0 : Int) ≤ s.groups_size * s.num_moments := mul_nonneg hG0 h_M
  have hget : ∀ k, k < s.local_cell_glob_indices.length →
      r.transport.local_cell_dof_array_address[k]? =
        some ((cellDofs MapFeView s.local_cell_glob_indices).take k).sum ∧
      r.transport.local_cell_phi_dof_array_address[k]? =
        some (s.groups_size * s.num_moments *
          ((cellDofs MapFeView s.local_cell_glob_indices).take k).sum) := by
    intro k hk
    have hk1 : k < (cellDofs MapFeView s.local_cell_glob_indices).length := by
      rw [hlenD]; exact hk
    have hg := prefixFrom_get _ 0 k hk1
    rw [zero_add] at hg
    constructor
    · rw [hdof, hg]
    · rw [hphi, List.getElem?_map, hg]
      rfl
  refine ⟨?_, ?_, hget, ?_, ?_, ?_, ?_⟩
  · rw [hdof, prefixFrom_length, hlenD]
  · rw [hphi, List.length_map, prefixFrom_length, hlenD]
  · intro pre g post hsplit
    have hsplit1 : s.local_cell_glob_indices = (pre ++ [g]) ++ post := by
      rw [hsplit]; simp
    have hl := hloop
    rw [hsplit1, initCells_append] at hl
    rw [hGw]
    cases hmid : initCells MapFeView matid_to_xs_map (s.groups_size : Int)
        s.num_moments (pre ++ [g]) (initialTransport s) with
    | none => simp [hmid] at hl
    | some mid =>
      simp only [hmid] at hl
      have hm := hmid
      rw [initCells_append] at hm
      cases hpre : initCells MapFeView matid_to_xs_map (s.groups_size : Int)
          s.num_moments pre (initialTransport s) with
      | none => simp [hpre] at hm
      | some midp =>
        simp only [hpre, initCells] at hm
        cases hstep : initCell MapFeView matid_to_xs_map (s.groups_size : Int)
            s.num_moments g midp with
        | none => simp [hstep] at hm
        | some st1 =>
          simp only [hstep, Option.some.injEq] at hm
          subst hm
          obtain ⟨cell, fe, view, _, _, _, _, _, hphi1, hview, hstart, cell1,
            hcell1, hid⟩ := initCell_spec hstep
          obtain ⟨more0, hm0, hl0⟩ := initCells_phi_extends _ _ _ hpre
          obtain ⟨more1, hm1, _⟩ := initCells_phi_extends _ _ _ hl
          rw [ep, List.nil_append] at hm0
          refine ⟨st1, cell1, view, rfl, hcell1, by rw [hid]; exact hview, ?_⟩
          rw [hm1, hphi1, hm0, hstart, List.append_assoc,
            List.getElem?_append_right (by omega)]
          simp [hl0]
  · intro hne
    have hpos : 0 < s.local_cell_glob_indices.length :=
      List.length_pos.mpr hne
    have := hget 0 hpos
    simpa using this
  · rw [hdof]
    exact prefixFrom_pairwise _ 0 h_dofs
  · rw [hphi]
    refine List.Pairwise.map _ ?_ (prefixFrom_pairwise _ 0 h_dofs)
    intro a b hab
    exact mul_le_mul_of_nonneg_left hab hGM

theorem slab_InitializeParrays_returns :
    ∃ r, InitializeParrays (fun _ => some { dofs := 2 }) (fun _ => some 0)
      slabMesh = some r := by
  norm_num [InitializeParrays, initialTransport, slabMesh, slabCells,
    emptyView, populateBoundaries, initCells, initCell, initFaces, initFace,
    pushFaceBoundaryId, Vector.Dot, ihat, jhat, khat, wrap32, resize]

/-- C9, on the two slab cells (2 dofs each, 3 groups, 2 moments): the second
cell has base address 2 and phi address 12. -/
theorem address_arrays_witness :
    slabMesh.local_cell_phi_dof_array_address = [] ∧
    slabMesh.local_cell_dof_array_address = [] ∧
    ∃ r, InitializeParrays (fun _ => some { dofs := 2 }) (fun _ => some 0)
        slabMesh = some r ∧
      r.transport.local_cell_dof_array_address[1]? = some 2 ∧
      r.transport.local_cell_phi_dof_array_address[1]? = some 12 := by
  obtain ⟨r, hr⟩ := slab_InitializeParrays_returns
  obtain ⟨_, _, hget, _⟩ :=
    address_arrays (fun _ => some { dofs := 2 }) (fun _ => some 0) slabMesh r
      hr rfl rfl (by decide) (by decide) (by decide) (by decide) (by decide)
      (by decide)
  have h1 := hget 1 (by decide)
  refine ⟨rfl, rfl, r, hr, ?_, ?_⟩
  · rw [h1.1]; decide
  · rw [h1.2]; decide

set_option maxRecDepth 100000

/-- C5, at the design point of the doc comment on 155 cells:
`local_dof_count` is 3720 and `local_unknown_count` is 2150160000, below
`2^64`, while the `int` counter `block_MG_counter` ends at -2144807296. -/
theorem block_MG_counter_wraps :
    (InitializeParrays (fun _ => some { dofs := 24 }) (fun _ => some 0)
        documentedMesh).map
      (fun r =>
        (r.local_dof_count, r.local_unknown_count,
         r.transport.block_MG_counter)) =
      some (3720, 2150160000, -2144807296) := by
  decide

end LinearBoltzman

/-! ## Theorems: finite-volume views -/

namespace SpatialDiscretization_FV

open chi_mesh LinearBoltzman

end SpatialDiscretization_FV

/-! ## Theorems: sweep stages -/

namespace chi_mesh.sweep_management

theorem inDegree_pos {edges : List (Nat × Nat)} {remaining : List Nat}
    {p s : Nat} (he : (p, s) ∈ edges) (hp : p ∈ remaining) :
    inDegree edges remaining s ≠ 0 := by
  intro h
  unfold inDegree at h
  rw [List.length_eq_zero, List.filter_eq_nil_iff] at h
  exact h (p, s) he (by simp [hp])

theorem levelize_sound (edges : List (Nat × Nat)) :
    ∀ (bound : Nat) (remaining : List Nat) (stages : List (List Nat)),
      levelize edges bound remaining = Except.ok stages →
      (∀ c ∈ remaining, ∃ i, stageOf stages c = some i) ∧
      (∀ p s, (p, s) ∈ edges → p ∈ remaining → s ∈ remaining →
        ∃ i j, stageOf stages p = some i ∧ stageOf stages s = some j ∧
          i < j) := by
  intro bound
  induction bound with
  | zero =>
    intro remaining stages h
    simp only [levelize] at h
    split at h
    · rename_i hnil
      subst hnil
      simp
    · simp at h
  | succ bound ih =>
    intro remaining stages h
    simp only [levelize] at h
    split at h
    · rename_i hnil
      subst hnil
      simp
    · split at h
      · simp at h
      · cases hrest : levelize edges bound
            (withoutStage remaining (nextStage edges remaining)) with
        | error e => simp [hrest] at h
        | ok later =>
          simp only [hrest, Except.ok.injEq] at h
          subst h
          obtain ⟨hall, hord⟩ := ih _ _ hrest
          have hkeep : ∀ c ∈ remaining, c ∉ nextStage edges remaining →
              c ∈ withoutStage remaining (nextStage edges remaining) := by
            intro c hc hnot
            unfold withoutStage
            rw [List.mem_filter]
            exact ⟨hc, by simpa using hnot⟩
          constructor
          · intro c hc
            by_cases hin : c ∈ nextStage edges remaining
            · exact ⟨0, by simp [stageOf, hin]⟩
            · obtain ⟨i, hi⟩ := hall c (hkeep c hc hin)
              exact ⟨i + 1, by simp [stageOf, hin, hi]⟩
          · intro p s he hp hs
            have hs_not : s ∉ nextStage edges remaining := by
              intro hmem
              unfold nextStage at hmem
              rw [List.mem_filter] at hmem
              exact inDegree_pos he hp (by simpa using hmem.2)
            have hs_later := hkeep s hs hs_not
            by_cases hin : p ∈ nextStage edges remaining
            · obtain ⟨j, hj⟩ := hall s hs_later
              exact ⟨0, j + 1, by simp [stageOf, hin],
                by simp [stageOf, hs_not, hj], by omega⟩
            · obtain ⟨i, j, hi, hj, hij⟩ :=
                hord p s he (hkeep p hp hin) hs_later
              exact ⟨i + 1, j + 1, by simp [stageOf, hin, hi],
                by simp [stageOf, hs_not, hj], by omega⟩

theorem withoutStage_length_lt {remaining stage : List Nat}
    (hsub : ∀ c ∈ stage, c ∈ remaining) (hne : stage ≠ []) :
    (withoutStage remaining stage).length < remaining.length := by
  unfold withoutStage
  rcases Nat.lt_or_ge (remaining.filter (fun c => c ∉ stage)).length
      remaining.length with hlt | hge
  · exact hlt
  · exfalso
    have heq := Nat.le_antisymm (List.length_filter_le _ remaining) hge
    rw [List.filter_length_eq_length] at heq
    obtain ⟨c, hc⟩ := List.exists_mem_of_ne_nil stage hne
    have := heq c (hsub c hc)
    simp [hc] at this

theorem nextStage_subset (edges : List (Nat × Nat)) (remaining : List Nat) :
    ∀ c ∈ nextStage edges remaining, c ∈ remaining := by
  intro c hc
  unfold nextStage at hc
  exact (List.mem_filter.mp hc).1

/-- The bound of `levelize` is enough once it reaches the number of cells: a
larger bound gives the same stages or the same error. -/
theorem levelize_bound_enough (edges : List (Nat × Nat)) :
    ∀ (bound : Nat) (remaining : List Nat), remaining.length ≤ bound →
      levelize edges (bound + 1) remaining = levelize edges bound remaining := by
  intro bound
  induction bound with
  | zero =>
    intro remaining h
    have hnil : remaining = [] := List.length_eq_zero.mp (by omega)
    subst hnil
    simp [levelize]
  | succ bound ih =>
    intro remaining h
    rw [levelize]
    conv_rhs => rw [levelize]
    by_cases hnil : remaining = []
    · simp [hnil]
    · simp only [hnil, if_false]
      by_cases hst : nextStage edges remaining = []
      · simp [hst]
      · simp only [hst, if_false]
        have hlt := withoutStage_length_lt (nextStage_subset edges remaining) hst
        rw [ih _ (by omega)]

/-- Scenario A of the specification, as a graph: four cells of a 2 x 2 grid
with edges along +x and +y give the stages {0}, {1, 2}, {3} and no delayed
edge. -/
theorem scenario_A_stages :
    buildFromGraph { x := 1, y := 1, z := 0 } [0, 1, 2, 3]
        [(0, 1), (0, 2), (1, 3), (2, 3)] =
      Except.ok
        { omega := { x := 1, y := 1, z := 0 }, spls := [[0], [1, 2], [3]],
          local_cyclic_dependencies := [] } := rfl

/-- Scenario C of the specification: on the ring 0 -> 1 -> 2 -> 0 exactly one
edge, (2, 0), is delayed and the rest gives three stages. -/
theorem scenario_C_stages :
    buildFromGraph { x := 1, y := 0, z := 0 } [0, 1, 2]
        [(0, 1), (1, 2), (2, 0)] =
      Except.ok
        { omega := { x := 1, y := 0, z := 0 }, spls := [[0], [1], [2]],
          local_cyclic_dependencies := [(2, 0)] } := rfl

theorem buildFromGraph_sound (omega : Vector) (cell_indices : List Nat)
    (edges : List (Nat × Nat)) (spds : SPDS)
    (h_build : buildFromGraph omega cell_indices edges = Except.ok spds)
    (p s : Nat) (he : (p, s) ∈ edges) (hp : p ∈ cell_indices)
    (hs : s ∈ cell_indices)
    (h_not_delayed : (p, s) ∉ spds.local_cyclic_dependencies) :
    ∃ i j, stageOf spds.spls p = some i ∧ stageOf spds.spls s = some j ∧
      i < j := by
  unfold buildFromGraph at h_build
  simp only at h_build
  split at h_build
  · simp at h_build
  · rename_i stages hlev
    simp only [Except.ok.injEq] at h_build
    subst h_build
    simp only at h_not_delayed ⊢
    exact (levelize_sound _ _ _ _ hlev).2 p s
      (by rw [List.mem_filter]; exact ⟨he, by simpa using h_not_delayed⟩)
      hp hs

theorem faceEdges_endpoints {cells : List Cell} {location_id : Int}
    {omega : Vector} {tolerance : ℚ} {cell_index : Nat} :
    ∀ (faces : List CellFace) (edges : List (Nat × Nat)),
      faceEdges cells location_id omega tolerance cell_index faces =
        Except.ok edges →
      ∀ p s, (p, s) ∈ edges →
        s = cell_index ∧ p ∈ localCells cells location_id := by
  intro faces
  induction faces with
  | nil =>
    intro edges h p s hps
    simp only [faceEdges, Except.ok.injEq] at h
    subst h
    simp at hps
  | cons face rest ih =>
    intro edges h p s hps
    simp only [faceEdges] at h
    cases hrest : faceEdges cells location_id omega tolerance cell_index rest with
    | error e => simp [hrest] at h
    | ok more =>
      simp only [hrest] at h
      split at h
      · simp only [Except.ok.injEq] at h
        subst h
        exact ih more hrest p s hps
      · cases hadj : cells[face.neighbor.toNat]? with
        | none => simp [hadj] at h
        | some adj_cell =>
          simp only [hadj] at h
          split at h
          · rename_i hcond
            simp only [Except.ok.injEq] at h
            subst h
            rcases List.mem_cons.mp hps with heq | hmem
            · simp only [Prod.mk.injEq] at heq
              refine ⟨heq.2, ?_⟩
              rw [heq.1]
              unfold localCells
              rw [List.mem_filter, List.mem_range]
              constructor
              · by_contra hcon
                rw [List.getElem?_eq_none (by omega)] at hadj
                simp at hadj
              · simp [hadj, hcond.2]
            · exact ih more hrest p s hmem
          · simp only [Except.ok.injEq] at h
            subst h
            exact ih more hrest p s hps

theorem localEdges_endpoints {cells : List Cell} {location_id : Int}
    {omega : Vector} {tolerance : ℚ} :
    ∀ (cell_indices : List Nat) (edges : List (Nat × Nat)),
      localEdges cells location_id omega tolerance cell_indices =
        Except.ok edges →
      ∀ p s, (p, s) ∈ edges →
        s ∈ cell_indices ∧ p ∈ localCells cells location_id := by
  intro cell_indices
  induction cell_indices with
  | nil =>
    intro edges h p s hps
    simp only [localEdges, Except.ok.injEq] at h
    subst h
    simp at hps
  | cons c rest ih =>
    intro edges h p s hps
    simp only [localEdges] at h
    cases hc : cells[c]? with
    | none => simp [hc] at h
    | some cell =>
      simp only [hc] at h
      cases hf : faceEdges cells location_id omega tolerance c cell.faces with
      | error e => simp [hf] at h
      | ok here =>
        simp only [hf] at h
        cases hr : localEdges cells location_id omega tolerance rest with
        | error e => simp [hr] at h
        | ok more =>
          simp only [hr, Except.ok.injEq] at h
          subst h
          rcases List.mem_append.mp hps with hmem | hmem
          · obtain ⟨h1, h2⟩ := faceEdges_endpoints _ _ hf p s hmem
            exact ⟨by rw [h1]; exact List.mem_cons_self _ _, h2⟩
          · obtain ⟨h1, h2⟩ := ih more hr p s hmem
            exact ⟨List.mem_cons_of_mem _ h1, h2⟩

/-- C6: the stages held by an SPDS order every non-delayed local edge. For
every candidate graph on which the construction returns an SPDS, and for
every mesh and direction on which it does, each local edge (p, s) that is
not among `local_cyclic_dependencies` has both cells in a stage and
stage(p) < stage(s). -/
theorem stages_order_non_delayed_edges :
    (∀ (omega : Vector) (cell_indices : List Nat) (edges : List (Nat × Nat))
        (spds : SPDS),
      buildFromGraph omega cell_indices edges = Except.ok spds →
      ∀ p s, (p, s) ∈ edges → p ∈ cell_indices → s ∈ cell_indices →
        (p, s) ∉ spds.local_cyclic_dependencies →
        ∃ i j, stageOf spds.spls p = some i ∧ stageOf spds.spls s = some j ∧
          i < j) ∧
    (∀ (cells : List Cell) (location_id : Int) (omega : Vector)
        (tolerance : ℚ) (spds : SPDS) (edges : List (Nat × Nat)),
      buildSPDS cells location_id omega tolerance = Except.ok spds →
      localEdges cells location_id omega tolerance
        (localCells cells location_id) = Except.ok edges →
      ∀ p s, (p, s) ∈ edges → (p, s) ∉ spds.local_cyclic_dependencies →
        ∃ i j, stageOf spds.spls p = some i ∧ stageOf spds.spls s = some j ∧
          i < j) := by
  constructor
  · intro omega cell_indices edges spds h p s he hp hs hnd
    exact buildFromGraph_sound omega cell_indices edges spds h p s he hp hs hnd
  · intro cells location_id omega tolerance spds edges h hedges p s he hnd
    unfold buildSPDS at h
    simp only [hedges] at h
    obtain ⟨hs, hp⟩ := localEdges_endpoints _ _ hedges p s he
    exact buildFromGraph_sound omega _ edges spds h p s he hp hs hnd

theorem slab_localEdges :
    localEdges LinearBoltzman.slabCells 0 { x := 1, y := 0, z := 0 } (1 / 1000)
      (localCells LinearBoltzman.slabCells 0) = Except.ok [(0, 1)] := by
  have hc : localCells LinearBoltzman.slabCells 0 = [0, 1] := by decide
  rw [hc]
  norm_num [localEdges, faceEdges, LinearBoltzman.slabCells, Vector.Dot]

theorem slab_buildSPDS :
    buildSPDS LinearBoltzman.slabCells 0 { x := 1, y := 0, z := 0 } (1 / 1000) =
      Except.ok
        { omega := { x := 1, y := 0, z := 0 }, spls := [[0], [1]],
          local_cyclic_dependencies := [] } := by
  unfold buildSPDS
  rw [slab_localEdges]
  have hc : localCells LinearBoltzman.slabCells 0 = [0, 1] := by decide
  simp only [hc]
  rfl

/-- C6, on the two slab cells swept along +x: the edge (0, 1) is not delayed
and cell 0 is in an earlier stage than cell 1; and on the ring 0 -> 1 -> 2
-> 0, where the edge (2, 0) is delayed, the edge (0, 1) is ordered. -/
theorem stages_order_non_delayed_edges_witness :
    (∃ i j,
      stageOf [[0], [1]] 0 = some i ∧ stageOf [[0], [1]] 1 = some j ∧ i < j) ∧
    (∃ i j,
      stageOf [[0], [1], [2]] 0 = some i ∧ stageOf [[0], [1], [2]] 1 = some j ∧
        i < j) :=
  ⟨stages_order_non_delayed_edges.2 LinearBoltzman.slabCells 0
      { x := 1, y := 0, z := 0 } (1 / 1000)
      { omega := { x := 1, y := 0, z := 0 }, spls := [[0], [1]],
        local_cyclic_dependencies := [] }
      [(0, 1)] slab_buildSPDS slab_localEdges 0 1 (by decide) (by decide),
   stages_order_non_delayed_edges.1 { x := 1, y := 0, z := 0 } [0, 1, 2]
      [(0, 1), (1, 2), (2, 0)]
      { omega := { x := 1, y := 0, z := 0 }, spls := [[0], [1], [2]],
        local_cyclic_dependencies := [(2, 0)] }
      scenario_C_stages 0 1 (by decide) (by decide) (by decide) (by decide)⟩

end chi_mesh.sweep_management
